import Mathlib

/-!
Shallow embedding of the robots.txt parser and access resolver
(src/parser.rs of joshmsimpson/robots-txt).

Rust strings are modelled as `List Char` (`Str`); `rlen` is the Rust
byte length `str::len` (UTF-8 size).  Positions inside the wildcard
matcher are modelled as character counts, which mark the same
boundaries the Rust byte positions mark (both always sit at a char
boundary reached by the same segment scan).  `HashMap<String, RobotRule>`
is modelled as an association list with unique keys (insertion is
guarded by `contains_key` exactly as in the source); only keyed lookup
and keyed in-place update are performed on it, so the representation
is faithful.  `str::lines` is modelled as `splitOn '\n'`: the two
divergences (Rust drops a final empty segment and strips a trailing
`'\r'`) are absorbed because every line is trimmed — `'\r'` is trim
whitespace — and an empty trimmed line is skipped.
-/

set_option maxRecDepth 4000

/-- A Rust string, as its sequence of characters. -/
abbrev Str := List Char

/-- Rust `str::len`: the UTF-8 byte length. -/
def rlen (s : Str) : Nat := (s.map Char.utf8Size).sum

/-- Rust `str::trim` (whitespace stripped from both ends). -/
def trimStr (s : Str) : Str :=
  ((s.dropWhile Char.isWhitespace).reverse.dropWhile Char.isWhitespace).reverse

/-- Rust `str::to_lowercase` (agent tokens and directive names are ASCII). -/
def toLowerStr (s : Str) : Str := s.map Char.toLower

/-- Rust `str::split_once(c)`: split at the first occurrence of `c`,
`none` when `c` does not occur. -/
def splitOnce (c : Char) : Str → Option (Str × Str)
  | [] => none
  | x :: xs =>
    if x = c then some ([], xs)
    else (splitOnce c xs).map (fun p => (x :: p.1, p.2))

/-- Rust `str::contains(&str)`: substring containment. -/
def isSubstrOf (needle : Str) : Str → Bool
  | [] => needle.isEmpty
  | c :: t => needle.isPrefixOf (c :: t) || isSubstrOf needle t

/-- Rust `str::find(&str)`: position of the first occurrence. -/
def findSub (needle : Str) : Str → Option Nat
  | [] => if needle.isEmpty then some 0 else none
  | c :: t =>
    if needle.isPrefixOf (c :: t) then some 0
    else (findSub needle t).map (fun n => n + 1)

/-- `struct RobotRule` (src/parser.rs lines 8-15). -/
structure RobotRule where
  user_agent : Str
  allowed : List Str
  disallowed : List Str
deriving DecidableEq, Repr

/-- `struct RobotsTxt` (src/parser.rs lines 19-24); `rules` is the
`HashMap` as an association list with unique keys. -/
structure RobotsTxt where
  domain : Option Str
  rules : List (Str × RobotRule)
  sitemaps : List Str
  comments : List Str
deriving DecidableEq, Repr

/-- `HashMap::get`. -/
def lookupRule (m : List (Str × RobotRule)) (k : Str) : Option RobotRule :=
  (m.find? (fun p => p.1 == k)).map Prod.snd

/-- `HashMap::contains_key`. -/
def containsKey (m : List (Str × RobotRule)) (k : Str) : Bool :=
  m.any (fun p => p.1 == k)

/-- `if let Some(rule) = rules.get_mut(agent) { f(rule) }`: update the
entry with key `k` in place, no-op when absent (keys are unique). -/
def updateRule (m : List (Str × RobotRule)) (k : Str)
    (f : RobotRule → RobotRule) : List (Str × RobotRule) :=
  m.map (fun p => if p.1 = k then (p.1, f p.2) else p)

/-- The parser's loop state: the three accumulators of
`parse_with_domain` plus `current_agents` (src/parser.rs lines 63-67). -/
structure ParseState where
  rules : List (Str × RobotRule)
  sitemaps : List Str
  comments : List Str
  currentAgents : List Str
deriving DecidableEq, Repr

/-- The body of the `allow` arm's loop: push `value` onto the `allowed`
list of the rule of agent `a`, once (src/parser.rs lines 106-110). -/
def pushAllow (value : Str) (rs : List (Str × RobotRule)) (a : Str) :
    List (Str × RobotRule) :=
  updateRule rs a (fun r => { r with allowed := r.allowed ++ [value] })

/-- The body of the `disallow` arm's loop: push `value` onto the
`disallowed` list of the rule of agent `a`, once
(src/parser.rs lines 114-118). -/
def pushDisallow (value : Str) (rs : List (Str × RobotRule)) (a : Str) :
    List (Str × RobotRule) :=
  updateRule rs a (fun r => { r with disallowed := r.disallowed ++ [value] })

/-- The directive dispatch of `parse_with_domain`
(src/parser.rs lines 88-128), after the directive name has been trimmed
and lowercased and the value trimmed.  The `allow`/`disallow` arms fold
their push over `current_agents` in order, applying it once per
occurrence of an agent in the list, exactly as the Rust `for` loop. -/
def dispatch (st : ParseState) (directive value : Str) : ParseState :=
  if directive = "user-agent".toList then
    let agent := toLowerStr value
    let rules' :=
      if containsKey st.rules agent then st.rules
      else st.rules ++ [(agent, { user_agent := agent, allowed := [], disallowed := [] })]
    { st with rules := rules', currentAgents := st.currentAgents ++ [agent] }
  else if directive = "allow".toList then
    { st with rules := st.currentAgents.foldl (pushAllow value) st.rules }
  else if directive = "disallow".toList then
    { st with rules := st.currentAgents.foldl (pushDisallow value) st.rules }
  else if directive = "sitemap".toList then
    { st with sitemaps := st.sitemaps ++ [value], currentAgents := [] }
  else
    st

/-- One iteration of the line loop of `parse_with_domain`
(src/parser.rs lines 69-130): trim, comment branch, empty-line skip,
split on the first colon (no colon: ignore), then dispatch. -/
def processLine (st : ParseState) (rawLine : Str) : ParseState :=
  let line := trimStr rawLine
  if line.head? = some '#' then
    { st with comments := st.comments ++ [trimStr line.tail] }
  else if line = [] then
    st
  else
    match splitOnce ':' line with
    | some (d, v) => dispatch st (toLowerStr (trimStr d)) (trimStr v)
    | none => st

/-- `RobotsTxt::parse_with_domain` (src/parser.rs lines 62-138). -/
def parse_with_domain (content : Str) (domain : Option Str) : RobotsTxt :=
  let st := (content.splitOn '\n').foldl processLine
    { rules := [], sitemaps := [], comments := [], currentAgents := [] }
  { domain := domain, rules := st.rules, sitemaps := st.sitemaps,
    comments := st.comments }

/-- `RobotsTxt::parse` (src/parser.rs lines 43-45). -/
def parse (content : Str) : RobotsTxt := parse_with_domain content none

/-- The wildcard loop of `path_matches` for the parts after the first
(src/parser.rs lines 337-357): a middle part must occur and advances the
position past its first occurrence; the last part must occur anywhere at
or after the position. -/
def wildLoop (path : Str) : List Str → Nat → Bool
  | [], _ => true
  | [part], pos => isSubstrOf part (path.drop pos)
  | part :: next :: rest, pos =>
    match findSub part (path.drop pos) with
    | some found => wildLoop path (next :: rest) (pos + found + part.length)
    | none => false

/-- The wildcard branch of `path_matches`: the first part must match at
the start of the path, the rest runs through `wildLoop`. -/
def wildMatch (path : Str) (parts : List Str) : Bool :=
  match parts with
  | [] => true
  | part :: rest =>
    if part.isPrefixOf path then wildLoop path rest part.length else false

/-- `path_matches` (src/parser.rs lines 316-360). -/
def path_matches (path pattern : Str) : Bool :=
  if pattern.getLast? = some '$' then
    let pat := pattern.dropLast
    if pat.contains '*' then
      path == pat.filter (fun c => !(c == '*'))
    else
      path == pat
  else if !(pattern.contains '*') then
    pattern.isPrefixOf path
  else
    wildMatch path (pattern.splitOn '*')

/-- The disallow scan of `can_fetch` (src/parser.rs lines 203-216):
`some b` when a non-empty disallow pattern matched and the allow-override
check yielded `b`; `none` when no non-empty disallow pattern matched. -/
def disallowScan (allowed : List Str) (path : Str) : List Str → Option Bool
  | [] => none
  | d :: rest =>
    if d.isEmpty then disallowScan allowed path rest
    else if path_matches path d then
      some (allowed.any (fun a => path_matches path a && rlen d < rlen a))
    else disallowScan allowed path rest

/-- The verdict `can_fetch` computes once a rule has been selected
(src/parser.rs lines 202-231). -/
def verdict (rule : RobotRule) (path : Str) : Bool :=
  match disallowScan rule.allowed path rule.disallowed with
  | some b => b
  | none =>
    if rule.allowed.isEmpty then true
    else rule.allowed.any (fun a => path_matches path a)

/-- `RobotsTxt::can_fetch` (src/parser.rs lines 188-232): lowercase the
agent, select the exact rule, else the `"*"` rule, else allow. -/
def can_fetch (doc : RobotsTxt) (user_agent path : Str) : Bool :=
  let ua := toLowerStr user_agent
  match lookupRule doc.rules ua with
  | some rule => verdict rule path
  | none =>
    match lookupRule doc.rules "*".toList with
    | some rule => verdict rule path
    | none => true

/-- `RobotsTxt::get_rule` (src/parser.rs lines 291-294). -/
def get_rule (doc : RobotsTxt) (user_agent : Str) : Option RobotRule :=
  match lookupRule doc.rules (toLowerStr user_agent) with
  | some rule => some rule
  | none => lookupRule doc.rules "*".toList

/-- The rule `can_fetch` selects: exact lowercased token, else `"*"`. -/
def selectRule (doc : RobotsTxt) (user_agent : Str) : Option RobotRule :=
  get_rule doc user_agent

/-- The two-step verdict algorithm as the spec words it: find the first
non-empty disallow pattern matching the path; if found, allow exactly
when a strictly longer matching allow pattern exists; otherwise allow
when the allow list is empty or some allow pattern matches. -/
def verdictSpec (rule : RobotRule) (path : Str) : Bool :=
  match rule.disallowed.find? (fun d => !d.isEmpty && path_matches path d) with
  | some d => rule.allowed.any (fun a => path_matches path a && rlen d < rlen a)
  | none => rule.allowed.isEmpty || rule.allowed.any (fun a => path_matches path a)

/-- The disallow scan returns the allow-override check of the first
non-empty disallow pattern matching the path, `none` when there is no
such pattern. -/
theorem disallowScan_eq_find (allowed : List Str) (path : Str) :
    ∀ ds : List Str, disallowScan allowed path ds =
      (ds.find? (fun d => !d.isEmpty && path_matches path d)).map
        (fun d => allowed.any (fun a => path_matches path a && rlen d < rlen a)) := by
  intro ds
  induction ds with
  | nil => rfl
  | cons d rest ih =>
    cases hd : d.isEmpty with
    | true =>
      rw [List.find?_cons_of_neg _ (by simp [hd])]
      simpa [disallowScan, hd] using ih
    | false =>
      cases hm : path_matches path d with
      | true =>
        rw [List.find?_cons_of_pos _ (by simp [hd, hm])]
        simp [disallowScan, hd, hm]
      | false =>
        rw [List.find?_cons_of_neg _ (by simp [hd, hm])]
        simpa [disallowScan, hd, hm] using ih

/-- The verdict of a selected rule equals the spec's two-step form. -/
theorem verdict_eq_spec (rule : RobotRule) (path : Str) :
    verdict rule path = verdictSpec rule path := by
  unfold verdict verdictSpec
  rw [disallowScan_eq_find]
  cases List.find? (fun d => !d.isEmpty && path_matches path d) rule.disallowed with
  | none => cases ha : rule.allowed.isEmpty <;> simp [ha]
  | some d => simp

/-- `can_fetch` is: select the rule (exact lowercased agent, else `"*"`),
then take its verdict; allow when no rule was selected. -/
theorem can_fetch_eq_select (doc : RobotsTxt) (ua path : Str) :
    can_fetch doc ua path =
      (match selectRule doc ua with
       | some rule => verdict rule path
       | none => true) := by
  unfold can_fetch selectRule get_rule
  cases h1 : lookupRule doc.rules (toLowerStr ua) with
  | some rule => simp [h1]
  | none => cases h2 : lookupRule doc.rules "*".toList <;> simp [h1, h2]

example : path_matches "/admin/test".toList "/admin/".toList = true := by decide
example : path_matches "/file.html".toList "/*.html".toList = true := by decide
example : path_matches "/admin/file.php".toList "/admin/*.php".toList = true := by decide
example : path_matches "/test.html".toList "/test.html$".toList = true := by decide
example : path_matches "/test.html/more".toList "/test.html$".toList = false := by decide
example : path_matches "/x/y.html".toList "/*.html$".toList = false := by decide
example :
    can_fetch (parse "User-agent: *\nDisallow: /admin/\nAllow: /public/\n".toList)
      "Mozilla".toList "/public/x".toList = true := by decide
example :
    can_fetch (parse "User-agent: *\nDisallow: /admin/\nAllow: /public/\n".toList)
      "Mozilla".toList "/admin/x".toList = false := by decide
example :
    (get_rule (parse "User-agent: A\nDisallow: /one\nUser-agent: A\nDisallow: /two".toList)
      "A".toList).map RobotRule.disallowed =
    some ["/one".toList, "/two".toList, "/two".toList] := by decide

/-- Claim C1: for every document, agent and path, once a rule is
selected, `can_fetch` follows the two-step verdict algorithm: scan
`disallowed` in document order skipping empty patterns; for the first
non-empty disallowed pattern matching the path return true iff some
allowed pattern matches the path with raw string length strictly
greater than that disallowed pattern's length; if no non-empty
disallowed pattern matches, return true when `allowed` is empty, and
otherwise iff some allowed pattern matches the path. -/
theorem claim1_can_fetch_two_step_verdict (doc : RobotsTxt) (ua path : Str) :
    can_fetch doc ua path =
      (match selectRule doc ua with
       | some rule => verdictSpec rule path
       | none => true) := by
  rw [can_fetch_eq_select]
  cases selectRule doc ua with
  | some rule => simp [verdict_eq_spec]
  | none => rfl

/-- Claim C3: parsing `"User-agent: *\nDisallow: /admin/\nAllow: /public/\n"`
yields a document for which `can_fetch "Mozilla" "/public/x"` is true and
`can_fetch "Mozilla" "/admin/x"` is false. -/
theorem claim3_scenario_a :
    can_fetch (parse "User-agent: *\nDisallow: /admin/\nAllow: /public/\n".toList)
      "Mozilla".toList "/public/x".toList = true ∧
    can_fetch (parse "User-agent: *\nDisallow: /admin/\nAllow: /public/\n".toList)
      "Mozilla".toList "/admin/x".toList = false := by
  exact ⟨by decide, by decide⟩

/-- Claim C4: for every path and pattern ending in `'$'`, after
stripping the trailing `'$'`, if the remainder contains no `'*'` then
`path_matches` is exact equality of the path with the stripped pattern,
and if it contains `'*'` it is exact equality with the stripped pattern
with all `'*'` removed; in particular
`path_matches "/x/y.html" "/*.html$"` is false, the path being compared
for equality against `"/.html"`. -/
theorem claim4_dollar_anchor_degenerate (path pattern : Str)
    (h : pattern.getLast? = some '$') :
    (path_matches path pattern =
      (if (pattern.dropLast).contains '*' then
        path == (pattern.dropLast).filter (fun c => !(c == '*'))
      else
        path == pattern.dropLast)) ∧
    path_matches "/x/y.html".toList "/*.html$".toList = false ∧
    ("/*.html$".toList.dropLast).filter (fun c => !(c == '*')) = "/.html".toList := by
  refine ⟨?_, by decide, by decide⟩
  simp only [path_matches, h, if_pos]

/-- Witness for C4 at path `"/x/y.html"`, pattern `"/*.html$"`. -/
theorem claim4_witness :
    path_matches "/x/y.html".toList "/*.html$".toList =
      (if ("/*.html$".toList.dropLast).contains '*' then
        "/x/y.html".toList == ("/*.html$".toList.dropLast).filter (fun c => !(c == '*'))
      else
        "/x/y.html".toList == "/*.html$".toList.dropLast) :=
  (claim4_dollar_anchor_degenerate "/x/y.html".toList "/*.html$".toList (by decide)).1

/-- Claim C8: for every path and every pattern containing no `'*'` and
not ending in `'$'`, `path_matches path pattern` is exactly
`path.starts_with(pattern)`, i.e. `pattern.isPrefixOf path`. -/
theorem claim8_plain_pattern_is_prefix_match (path pattern : Str)
    (h1 : pattern.contains '*' = false)
    (h2 : pattern.getLast? ≠ some '$') :
    path_matches path pattern = pattern.isPrefixOf path := by
  unfold path_matches
  rw [if_neg h2, if_pos]
  rw [h1]
  rfl

/-- Witness for C8 at path `"/abc/d"`, pattern `"/abc"`. -/
theorem claim8_witness :
    path_matches "/abc/d".toList "/abc".toList =
      "/abc".toList.isPrefixOf "/abc/d".toList :=
  claim8_plain_pattern_is_prefix_match "/abc/d".toList "/abc".toList
    (by decide) (by decide)

/-- Claim C2 counterexample: on the input with two consecutive
`User-agent: A` blocks each followed by a distinct `Disallow` line, the
rule for agent `"a"` has disallowed `["/one", "/two", "/two"]` — the
second value occurs twice, not exactly once: `current_agents` holds the
token `"a"` twice, so the second `Disallow` line appends its value twice. -/
theorem claim2_counterexample :
    (get_rule (parse "User-agent: A\nDisallow: /one\nUser-agent: A\nDisallow: /two".toList)
        "A".toList).map RobotRule.disallowed =
      some ["/one".toList, "/two".toList, "/two".toList] ∧
    (((get_rule (parse "User-agent: A\nDisallow: /one\nUser-agent: A\nDisallow: /two".toList)
        "A".toList).map RobotRule.disallowed).getD []).count "/two".toList = 2 := by
  exact ⟨by decide, by decide⟩

/-- Claim C2 amended: the currently-active-agents collection is a
line-ordered list that may hold the same token more than once — a
`user-agent` line appends its token unconditionally — and each
Allow/Disallow line appends its value once per occurrence of an agent in
the list; for the two-consecutive-`User-agent: A`-blocks input, the rule
for `"a"` has disallowed `["/one", "/two", "/two"]`: the first value once
and the second value twice. -/
theorem claim2_amended_agents_list_with_duplicates :
    (∀ st value, (dispatch st "user-agent".toList value).currentAgents =
      st.currentAgents ++ [toLowerStr value]) ∧
    (∀ st value, (dispatch st "disallow".toList value).rules =
      st.currentAgents.foldl (pushDisallow value) st.rules) ∧
    (get_rule (parse "User-agent: A\nDisallow: /one\nUser-agent: A\nDisallow: /two".toList)
        "A".toList).map RobotRule.disallowed =
      some ["/one".toList, "/two".toList, "/two".toList] := by
  refine ⟨fun st value => ?_, fun st value => ?_, by decide⟩
  · simp [dispatch]
  · simp [dispatch]

/-- Claim C5: `can_fetch` lowercases the agent and selects the rule
stored under that exact token, else the rule stored under `"*"`; if
neither exists it returns true for every path. -/
theorem claim5_rule_selection (doc : RobotsTxt) (ua path : Str) :
    (∀ rule, lookupRule doc.rules (toLowerStr ua) = some rule →
      can_fetch doc ua path = verdict rule path) ∧
    (lookupRule doc.rules (toLowerStr ua) = none →
      ∀ rule, lookupRule doc.rules "*".toList = some rule →
        can_fetch doc ua path = verdict rule path) ∧
    (lookupRule doc.rules (toLowerStr ua) = none →
      lookupRule doc.rules "*".toList = none →
      can_fetch doc ua path = true) := by
  refine ⟨fun rule h1 => ?_, fun h1 rule h2 => ?_, fun h1 h2 => ?_⟩
  · rw [can_fetch_eq_select]; unfold selectRule get_rule; rw [h1]
  · rw [can_fetch_eq_select]; unfold selectRule get_rule; rw [h1, h2]
  · rw [can_fetch_eq_select]; unfold selectRule get_rule; rw [h1, h2]

/-- Witness for C5: a document with no rule blocks at all permits any
path for any agent. -/
theorem claim5_witness :
    can_fetch (parse []) "SomeBot".toList "/any/path".toList = true :=
  (claim5_rule_selection (parse []) "SomeBot".toList "/any/path".toList).2.2
    (by decide) (by decide)

/-- Claim C6: a `sitemap` directive appends its value to `sitemaps`
unconditionally and clears the active-agent list; consequently, on an
input where a `Sitemap` line sits between two `Disallow` lines of the
same agent block, the later `Disallow` value is appended to no rule:
the whole rule set is exactly the rule for `"a"` with
disallowed `["/one"]`. -/
theorem claim6_sitemap_global_and_clears (st : ParseState) (value : Str) :
    dispatch st "sitemap".toList value =
      { st with sitemaps := st.sitemaps ++ [value], currentAgents := [] } ∧
    (parse "User-agent: a\nDisallow: /one\nSitemap: http://e/map.xml\nDisallow: /two".toList).rules =
      [("a".toList, ⟨"a".toList, [], ["/one".toList]⟩)] ∧
    (parse "User-agent: a\nDisallow: /one\nSitemap: http://e/map.xml\nDisallow: /two".toList).sitemaps =
      ["http://e/map.xml".toList] := by
  refine ⟨?_, by decide, by decide⟩
  simp [dispatch]

/-- Claim C7: `parse` is a total function into documents — the empty
input yields a document with no rules, no sitemaps and no comments;
an empty (post-trim) line leaves the parse state unchanged; a
non-comment line without a colon leaves it unchanged; a comment line
only appends its trimmed body to `comments`; and an unrecognized
directive name leaves the state unchanged. -/
theorem claim7_parse_total_and_skips :
    parse [] = { domain := none, rules := [], sitemaps := [], comments := [] } ∧
    (∀ st line, trimStr line = [] → processLine st line = st) ∧
    (∀ st line, (trimStr line).head? ≠ some '#' →
      splitOnce ':' (trimStr line) = none → processLine st line = st) ∧
    (∀ st line, (trimStr line).head? = some '#' →
      processLine st line =
        { st with comments := st.comments ++ [trimStr (trimStr line).tail] }) ∧
    (∀ st directive value,
      directive ≠ "user-agent".toList → directive ≠ "allow".toList →
      directive ≠ "disallow".toList → directive ≠ "sitemap".toList →
      dispatch st directive value = st) := by
  refine ⟨by decide, fun st line h => ?_, fun st line h1 h2 => ?_,
    fun st line h => ?_, fun st directive value h1 h2 h3 h4 => ?_⟩
  · simp [processLine, h]
  · unfold processLine
    rw [if_neg h1]
    by_cases h0 : trimStr line = []
    · simp [h0]
    · simp [h0, h2]
  · simp [processLine, h]
  · unfold dispatch
    rw [if_neg h1, if_neg h2, if_neg h3, if_neg h4]

/-- Witness for C7: the skip branches at concrete lines. -/
theorem claim7_witness :
    processLine { rules := [], sitemaps := [], comments := [], currentAgents := [] }
      "this line has no colon".toList =
      { rules := [], sitemaps := [], comments := [], currentAgents := [] } :=
  claim7_parse_total_and_skips.2.2.1
    { rules := [], sitemaps := [], comments := [], currentAgents := [] }
    "this line has no colon".toList (by decide) (by decide)

/-- `path_matches` accepts the empty pattern against every path: the
empty pattern takes the prefix branch and every string starts with the
empty string. -/
theorem path_matches_empty_pattern (path : Str) : path_matches path [] = true := by
  cases path <;> rfl

/-- Any non-`sitemap` directive leaves the active-agent list an
extension of what it was: `user-agent` appends one token, every other
arm leaves it unchanged. -/
theorem dispatch_agents_extend (st : ParseState) (directive value : Str)
    (h : directive ≠ "sitemap".toList) :
    ∃ t, (dispatch st directive value).currentAgents = st.currentAgents ++ t := by
  unfold dispatch
  by_cases h1 : directive = "user-agent".toList
  · rw [if_pos h1]
    exact ⟨[toLowerStr value], rfl⟩
  · rw [if_neg h1]
    by_cases h2 : directive = "allow".toList
    · rw [if_pos h2]; exact ⟨[], by simp⟩
    · rw [if_neg h2]
      by_cases h3 : directive = "disallow".toList
      · rw [if_pos h3]; exact ⟨[], by simp⟩
      · rw [if_neg h3, if_neg h]; exact ⟨[], by simp⟩

/-- Claim C9: only a `sitemap` directive ever clears the active-agent
list — processing any line whose directive is not `sitemap` extends the
list (a `user-agent` line appends its token to the still-active list
instead of starting a fresh group); so for the input
`"User-agent: a\nDisallow: /a\nUser-agent: b\nDisallow: /b"` the value
`"/b"` is appended to the disallowed sequences of both rule `"a"` and
rule `"b"`. -/
theorem claim9_useragent_extends_active_list :
    (∀ st line, (splitOnce ':' (trimStr line)).map
        (fun p => toLowerStr (trimStr p.1)) ≠ some "sitemap".toList →
      ∃ t, (processLine st line).currentAgents = st.currentAgents ++ t) ∧
    (∀ st value, (dispatch st "user-agent".toList value).currentAgents =
      st.currentAgents ++ [toLowerStr value]) ∧
    (get_rule (parse "User-agent: a\nDisallow: /a\nUser-agent: b\nDisallow: /b".toList)
        "a".toList).map RobotRule.disallowed = some ["/a".toList, "/b".toList] ∧
    (get_rule (parse "User-agent: a\nDisallow: /a\nUser-agent: b\nDisallow: /b".toList)
        "b".toList).map RobotRule.disallowed = some ["/b".toList] := by
  refine ⟨fun st line h => ?_, fun st value => by simp [dispatch], by decide, by decide⟩
  by_cases hc : (trimStr line).head? = some '#'
  · exact ⟨[], by simp [processLine, hc]⟩
  · by_cases he : trimStr line = []
    · exact ⟨[], by simp [processLine, hc, he]⟩
    · cases hs : splitOnce ':' (trimStr line) with
      | none => exact ⟨[], by simp [processLine, hc, he, hs]⟩
      | some p =>
        obtain ⟨d, v⟩ := p
        have hd : toLowerStr (trimStr d) ≠ "sitemap".toList := by
          intro hx
          apply h
          rw [hs]
          simp [hx]
        have hp : processLine st line = dispatch st (toLowerStr (trimStr d)) (trimStr v) := by
          simp [processLine, hc, he, hs]
        rw [hp]
        exact dispatch_agents_extend st _ _ hd

/-- Witness for C9: processing an `Allow` line extends the agent list. -/
theorem claim9_witness :
    ∃ t, (processLine (⟨[], [], [], ["a".toList]⟩ : ParseState)
      "Allow: /x".toList).currentAgents =
      (⟨[], [], [], ["a".toList]⟩ : ParseState).currentAgents ++ t :=
  claim9_useragent_extends_active_list.1
    (⟨[], [], [], ["a".toList]⟩ : ParseState)
    "Allow: /x".toList (by decide)

/-- Claim C10: `path_matches path ""` is true for every path; hence,
once a rule is selected, when no non-empty disallowed pattern matches
the path, an empty string in `allowed` makes `can_fetch` return true for
every path, while an empty allowed entry can never override a matching
disallowed pattern, its length 0 never being strictly greater than the
disallowed pattern's length. -/
theorem claim10_empty_pattern_matches_all :
    (∀ path : Str, path_matches path [] = true) ∧
    (∀ doc ua path rule, selectRule doc ua = some rule →
      (∀ d ∈ rule.disallowed, d ≠ [] → path_matches path d = false) →
      [] ∈ rule.allowed → can_fetch doc ua path = true) ∧
    (∀ doc ua path rule, selectRule doc ua = some rule →
      (∃ d ∈ rule.disallowed, d ≠ [] ∧ path_matches path d = true) →
      (∀ a ∈ rule.allowed, a = []) → can_fetch doc ua path = false) := by
  refine ⟨path_matches_empty_pattern, ?_, ?_⟩
  · intro doc ua path rule hsel hnd ha
    rw [can_fetch_eq_select, hsel]
    show verdict rule path = true
    rw [verdict_eq_spec]
    unfold verdictSpec
    have hfind : rule.disallowed.find? (fun d => !d.isEmpty && path_matches path d) = none := by
      rw [List.find?_eq_none]
      intro d hdm
      by_cases hde : d = []
      · simp [hde]
      · simp [hnd d hdm hde]
    rw [hfind]
    have hany : rule.allowed.any (fun a => path_matches path a) = true := by
      rw [List.any_eq_true]
      exact ⟨[], ha, path_matches_empty_pattern path⟩
    simp [hany]
  · intro doc ua path rule hsel hex hall
    obtain ⟨d, hdm, hdne, hdmatch⟩ := hex
    rw [can_fetch_eq_select, hsel]
    show verdict rule path = false
    rw [verdict_eq_spec]
    unfold verdictSpec
    cases hf : rule.disallowed.find? (fun x => !x.isEmpty && path_matches path x) with
    | none =>
      exfalso
      rw [List.find?_eq_none] at hf
      apply hf d hdm
      simp [hdmatch, hdne]
    | some d2 =>
      rw [List.any_eq_false]
      intro a ham
      rw [hall a ham]
      simp [path_matches_empty_pattern, show rlen ([] : Str) = 0 from rfl]

/-- Witness for C10: a rule with an empty allow entry cannot override
its matching disallow pattern. -/
theorem claim10_witness :
    can_fetch (parse "User-agent: *\nAllow:\nDisallow: /a".toList)
      "Bot".toList "/a/x".toList = false :=
  claim10_empty_pattern_matches_all.2.2
    (parse "User-agent: *\nAllow:\nDisallow: /a".toList)
    "Bot".toList "/a/x".toList
    ⟨"*".toList, [[]], ["/a".toList]⟩ (by decide)
    ⟨"/a".toList, by decide, by decide⟩ (by decide)
